import Mathlib

/-!
Verification of the iobench concurrent read-benchmark engine
(src/main.rs) against its natural-language specification.

The embedding models the read phase of `read_tree`: the per-entry reader
`do_read_file` / `read_file`, the statistics type `ReadFilesStats` with its
`combine` merge, and the map-reduce over the entry list.  External effects
(the filesystem's answers to open / stat / read calls) are made explicit as
data carried by the modelled entry, so every function is executable.
u64 counters are modelled as `Nat`: all quantities are byte and file counts
far below 2^64, so machine overflow never occurs on the claims' inputs.
-/

namespace Iobench

/-- The fixed read-buffer size, `const BUF_SIZE: usize = 65536` (main.rs:152). -/
def BUF_SIZE : Nat := 65536

/-- Per-worker statistics, `struct ReadFilesStats` (main.rs:121-125):
running byte total and count of files read. -/
structure ReadFilesStats where
  bytes : Nat
  file_count : Nat
deriving DecidableEq

/-- The `#[derive(Default)]` value of `ReadFilesStats`: both counters zero. -/
def ReadFilesStats.default : ReadFilesStats := ⟨0, 0⟩

/-- `ReadFilesStats::combine` (main.rs:127-134): componentwise sum. -/
def ReadFilesStats.combine (a b : ReadFilesStats) : ReadFilesStats :=
  ⟨a.bytes + b.bytes, a.file_count + b.file_count⟩

/-- One result of the `f.read(&mut buf)` call in `do_read_file`'s loop:
`ok n` is a successful read of `n` bytes (`n = 0` means end of stream),
`ioErr` an I/O error (an `Err` that the `?` operator propagates). -/
inductive ReadEv where
  | ok (n : Nat)
  | ioErr
deriving DecidableEq

/-- A work item of the read phase: one regular-file entry together with the
outcomes the filesystem produces when this entry is processed.

* `listing_size` — modelled from the spec: the spec's `FileEntry.expected_size`,
  the size "captured at listing time".  The source's entry (a jwalk `DirEntry`
  obtained without metadata loading) stores no size, so this field records what
  the lister observed, for comparison with what the code actually uses.
* `open_ok` — whether `File::open` succeeds (main.rs:161).
* `meta_size` — the result of the `entry.metadata()?.size()` call made inside
  `do_read_file` (main.rs:163), i.e. a stat of the file performed during the
  read phase, right after the open; `none` means that call fails.
* `reads` — the successive results of the `f.read` calls, in order. -/
structure FileEntry where
  listing_size : Nat
  open_ok : Bool
  meta_size : Option Nat
  reads : List ReadEv
deriving DecidableEq

/-- Diagnostic-level (`debug!`) messages the worker can emit for one entry:
the truncation message (main.rs:171), the extension message (main.rs:181),
and `read_file`'s "error reading file" message on an `Err` (main.rs:145). -/
inductive Diag where
  | truncated
  | extended
  | errorLogged
deriving DecidableEq

/-- How the read loop of `do_read_file` ends: the `n == 0` break, the
`stats.bytes > size` break, a propagated read error, or — a model artifact
only — exhaustion of the modelled event list (a real stream always ends in
an `ok 0` or an error, so this case corresponds to no execution). -/
inductive LoopExit where
  | eofBreak
  | extendBreak
  | ioError
  | streamEnded
deriving DecidableEq

/-- The read loop of `do_read_file` (main.rs:167-184), over the modelled
stream of read results; `bytes` plays the role of `stats.bytes`.  Returns the
final byte total, the diagnostics emitted inside the loop, and how the loop
exited.  On `ok n` with `n = 0` the truncation check fires when the total
differs from `size`; otherwise `n` is added and the extension check stops the
loop as soon as the total exceeds `size`. -/
def readLoop (size : Nat) : List ReadEv → Nat → Nat × List Diag × LoopExit
  | [], bytes => (bytes, [], .streamEnded)
  | .ioErr :: _, bytes => (bytes, [], .ioError)
  | .ok n :: rest, bytes =>
    if n = 0 then
      (bytes, if bytes ≠ size then [.truncated] else [], .eofBreak)
    else
      let b := bytes + n
      if size < b then (b, [.extended], .extendBreak)
      else readLoop size rest b

/-- How `do_read_file` returns: which early `Err` (failed open, failed
metadata query) or which loop exit. -/
inductive ExitKind where
  | openFail
  | metaFail
  | loopEnd (l : LoopExit)
deriving DecidableEq

/-- Whether an `ExitKind` is an `Err` return of `do_read_file` (the cases in
which `read_file` logs its debug message). -/
def ExitKind.isErr : ExitKind → Bool
  | .openFail => true
  | .metaFail => true
  | .loopEnd .ioError => true
  | .loopEnd _ => false

/-- The outcome of `do_read_file` on one entry: the updated statistics, the
diagnostics emitted, and how it returned. -/
structure FileOutcome where
  stats : ReadFilesStats
  diags : List Diag
  exit : ExitKind
deriving DecidableEq

/-- `do_read_file` (main.rs:154-187): open the file (an `Err` leaves the stats
untouched), increment `file_count`, query the file's metadata for `size`
(an `Err` here keeps the incremented count), then run the read loop, which
accumulates into `stats.bytes`. -/
def do_read_file (e : FileEntry) (stats : ReadFilesStats) : FileOutcome :=
  if e.open_ok then
    let stats1 : ReadFilesStats := ⟨stats.bytes, stats.file_count + 1⟩
    match e.meta_size with
    | none => ⟨stats1, [], .metaFail⟩
    | some size =>
      match readLoop size e.reads stats1.bytes with
      | (bytes, diags, ex) => ⟨⟨bytes, stats1.file_count⟩, diags, .loopEnd ex⟩
  else ⟨stats, [], .openFail⟩

/-- `read_file` (main.rs:136-150): run `do_read_file` on fresh default stats;
on an `Err` a debug diagnostic is logged; the accumulated stats are returned
either way — per-entry errors never escape the worker. -/
def read_file (e : FileEntry) : ReadFilesStats × List Diag :=
  match do_read_file e ReadFilesStats.default with
  | r => (r.stats, r.diags ++ if r.exit.isErr then [Diag.errorLogged] else [])

/-- The statistics contribution of one entry (the value rayon's `map` step
produces for it). -/
def readFileStats (e : FileEntry) : ReadFilesStats := (read_file e).1

/-- The read-phase map-reduce of `read_tree` (main.rs:102-107): per-entry
stats combined with `combine` starting from the default.  rayon's `reduce`
may combine the per-entry values in any fan-in shape; the canonical order
modelled here is the right fold, and order-independence of the result is
proved separately. -/
def reduceStats (entries : List FileEntry) : ReadFilesStats :=
  (entries.map readFileStats).foldr ReadFilesStats.combine ReadFilesStats.default

/-- The statistics one worker accumulates over its chunk, sequentially. -/
def workerStats (chunk : List FileEntry) : ReadFilesStats :=
  (chunk.map readFileStats).foldr ReadFilesStats.combine ReadFilesStats.default

/-- The reduction of the per-worker results over a list of chunks. -/
def reduceWorkers (chunks : List (List FileEntry)) : ReadFilesStats :=
  (chunks.map workerStats).foldr ReadFilesStats.combine ReadFilesStats.default

/-- Helper for the modelled partitioner: `splitSized k c l` produces `k`
chunks of `c` entries, then one final chunk holding the remainder of `l`. -/
def splitSized {α : Type} : Nat → Nat → List α → List (List α)
  | 0, _, l => [l]
  | k + 1, c, l => l.take c :: splitSized k c (l.drop c)

/-- Modelled from the spec: the Work Partitioner of spec §4.1 is absent from
the source — `read_tree` hands the whole entry list to rayon's `par_iter`,
whose chunking lives in the rayon library, outside this repository.
Following the spec's words: `chunk_size = floor(L / T)`; an empty sequence
yields zero chunks; when `chunk_size == 0` (so `L < T`) a single chunk holds
all entries; otherwise all chunks have `chunk_size` entries except the last,
which takes the remainder. -/
def partitionChunks {α : Type} (T : Nat) (l : List α) : List (List α) :=
  if l.length = 0 then []
  else if l.length / T = 0 then [l]
  else splitSized (T - 1) (l.length / T) l

/-- A fan-in reduction tree over per-worker statistics, as rayon's `reduce`
may build one: leaves are worker results, inner nodes merge two subtrees. -/
inductive StatsTree where
  | leaf (s : ReadFilesStats)
  | node (l r : StatsTree)

/-- The value a reduction tree computes. -/
def StatsTree.reduceTree : StatsTree → ReadFilesStats
  | .leaf s => s
  | .node l r => (l.reduceTree).combine (r.reduceTree)

/-- The worker results at the leaves of a reduction tree, left to right. -/
def StatsTree.leaves : StatsTree → List ReadFilesStats
  | .leaf s => [s]
  | .node l r => l.leaves ++ r.leaves

/-- The size-drift policy of spec §4.2, written from the spec's words as a
function of the expected size: after every buffer read the running total is
compared against `expected` (exceeding it emits the extension diagnostic and
stops), and at end-of-stream a total below `expected` emits the truncation
diagnostic.  Used to state which size value the source compares against. -/
def specDriftDiags (expected : Nat) : List ReadEv → Nat → List Diag
  | [], _ => []
  | .ioErr :: _, _ => []
  | .ok n :: rest, total =>
    if n = 0 then (if total < expected then [.truncated] else []) else
    let t := total + n
    if expected < t then [.extended] else specDriftDiags expected rest t

/-- Model of the IEEE-754 `f64` values produced by the throughput divisions
in `read_tree` (main.rs:88-93, 112-118): finite values are kept as exact
rationals (rounding is irrelevant to the claims); `nan` and the infinities
are the non-finite results a division can produce. -/
inductive F64 where
  | val (q : ℚ)
  | posInf
  | negInf
  | nan
deriving DecidableEq

/-- Rust `f64` division on finite operands, per IEEE-754: it never traps;
`x / 0` is NaN when `x = 0` and a signed infinity otherwise.  This non-trap
semantics is the only guard the source has, or needs, against zero elapsed
time. -/
def f64Div (a b : ℚ) : F64 :=
  if b = 0 then
    if a = 0 then F64.nan else if 0 < a then F64.posInf else F64.negInf
  else F64.val (a / b)

/-- The read-phase figures printed by `read_tree` (main.rs:109-118), with the
elapsed seconds `dur` as a parameter (wall-clock time is an external input):
`byte_total` is `all_stats.bytes`; `files_figure` is the numerator of the
printed files-per-second figure, which the source takes from
`all_files.len()` — the listed entry count — and `files_per_s` the printed
quotient. -/
structure ReadPhaseReport where
  byte_total : Nat
  files_figure : Nat
  files_per_s : F64
deriving DecidableEq

/-- The read-phase report computation of `read_tree` (main.rs:109-118). -/
def readPhaseReport (entries : List FileEntry) (dur : ℚ) : ReadPhaseReport :=
  { byte_total := (reduceStats entries).bytes
    files_figure := entries.length
    files_per_s := f64Div (entries.length : ℚ) dur }

/-- Concrete entry: an entry whose open fails (e.g. permission denied). -/
def eBad : FileEntry := ⟨100, false, none, []⟩

/-- Concrete entry: a readable 100-byte file, stable between stat and read. -/
def eGood : FileEntry := ⟨100, true, some 100, [.ok 100, .ok 0]⟩

/-- Concrete chunk: one unreadable file and two readable 100-byte files. -/
def entries8 : List FileEntry := [eBad, eGood, eGood]

/-- Concrete entry: listed at 1000 bytes, extended to 2000 bytes before the
read phase, so the read-phase stat reports 2000 and the whole file streams. -/
def e7 : FileEntry := ⟨1000, true, some 2000, [.ok 1000, .ok 1000, .ok 0]⟩

/-- Concrete entry: stat reports 5 bytes but the stream delivers 3 + 3. -/
def e3 : FileEntry := ⟨5, true, some 5, [.ok 3, .ok 3, .ok 7]⟩

/-- Concrete entry: stat reports 10 bytes but the stream ends after 4. -/
def e4 : FileEntry := ⟨0, true, some 10, [.ok 4, .ok 0]⟩

/-- Concrete entry: open succeeds but the metadata query fails. -/
def e10 : FileEntry := ⟨0, true, none, []⟩

/-- Concrete entry: stat reports 10 bytes, 4 bytes arrive, then an I/O error. -/
def e5 : FileEntry := ⟨0, true, some 10, [.ok 4, .ioErr]⟩

lemma combine_assoc (a b c : ReadFilesStats) :
    (a.combine b).combine c = a.combine (b.combine c) := by
  simp [ReadFilesStats.combine, Nat.add_assoc]

lemma combine_comm (a b : ReadFilesStats) : a.combine b = b.combine a := by
  simp [ReadFilesStats.combine, Nat.add_comm]

lemma combine_default_right (s : ReadFilesStats) :
    s.combine ReadFilesStats.default = s := by
  cases s
  simp [ReadFilesStats.combine, ReadFilesStats.default]

lemma foldr_combine_init (l : List ReadFilesStats) (init : ReadFilesStats) :
    l.foldr ReadFilesStats.combine init
      = (l.foldr ReadFilesStats.combine ReadFilesStats.default).combine init := by
  induction l with
  | nil =>
    cases init
    simp [ReadFilesStats.combine, ReadFilesStats.default]
  | cons a l ih => simp [List.foldr, ih, combine_assoc]

lemma splitSized_flatten {α : Type} (k c : Nat) (l : List α) :
    (splitSized k c l).flatten = l := by
  induction k generalizing l with
  | zero => simp [splitSized]
  | succ k ih => simp [splitSized, ih, List.take_append_drop]

lemma splitSized_lengths {α : Type} (k c : Nat) (l : List α)
    (h : k * c + c ≤ l.length) :
    (splitSized k c l).map List.length
      = List.replicate k c ++ [l.length - k * c] := by
  induction k generalizing l with
  | zero => simp [splitSized]
  | succ k ih =>
    have hmul : (k + 1) * c = k * c + c := by ring
    rw [hmul] at h
    have hc : c ≤ l.length := by omega
    have hdrop : k * c + c ≤ (l.drop c).length := by
      rw [List.length_drop]
      omega
    have hlen : (l.take c).length = c := by
      rw [List.length_take]
      omega
    have hsub : l.length - c - k * c = l.length - (k + 1) * c := by
      rw [hmul]
      omega
    simp only [splitSized, List.map_cons, ih (l.drop c) hdrop, hlen,
      List.replicate_succ, List.cons_append, List.length_drop, hsub]

lemma readLoop_consume (size acc : Nat) (pre : List Nat) (tail : List ReadEv)
    (hpos : ∀ k ∈ pre, 0 < k) (hle : acc + pre.sum ≤ size) :
    readLoop size (pre.map ReadEv.ok ++ tail) acc
      = readLoop size tail (acc + pre.sum) := by
  induction pre generalizing acc with
  | nil => simp
  | cons k pre ih =>
    have hk : 0 < k := hpos k (by simp)
    have hsum : acc + k + pre.sum ≤ size := by
      rw [List.sum_cons] at hle
      omega
    have hk0 : ¬ k = 0 := by omega
    have hnlt : ¬ size < acc + k := by omega
    simp only [List.map_cons, List.cons_append, List.append_eq, readLoop,
      if_neg hk0, if_neg hnlt]
    rw [ih (acc + k) (fun k' hk' => hpos k' (by simp [hk'])) hsum]
    congr 1
    rw [List.sum_cons]
    omega

lemma readLoop_diags_spec (size : Nat) (reads : List ReadEv) (acc : Nat)
    (h : acc ≤ size) :
    (readLoop size reads acc).2.1 = specDriftDiags size reads acc := by
  induction reads generalizing acc with
  | nil => simp [readLoop, specDriftDiags]
  | cons ev rest ih =>
    cases ev with
    | ioErr => simp [readLoop, specDriftDiags]
    | ok n =>
      by_cases hn : n = 0
      · subst hn
        have hiff : (acc ≠ size) ↔ (acc < size) := by omega
        simp [readLoop, specDriftDiags, hiff]
      · by_cases hlt : size < acc + n
        · simp [readLoop, specDriftDiags, hn, hlt]
        · simp only [readLoop, specDriftDiags, if_neg hn, if_neg hlt]
          exact ih (acc + n) (by omega)

lemma reduceStats_append (l₁ l₂ : List FileEntry) :
    reduceStats (l₁ ++ l₂) = (reduceStats l₁).combine (reduceStats l₂) := by
  unfold reduceStats
  rw [List.map_append, List.foldr_append]
  exact foldr_combine_init (l₁.map readFileStats) _

lemma reduceWorkers_flatten (cs : List (List FileEntry)) :
    reduceWorkers cs = reduceStats cs.flatten := by
  induction cs with
  | nil => rfl
  | cons c cs ih =>
    have hstep : reduceWorkers (c :: cs)
        = (workerStats c).combine (reduceWorkers cs) := rfl
    rw [hstep, ih, List.flatten_cons, reduceStats_append]
    rfl

lemma foldr_combine_perm {l₁ l₂ : List ReadFilesStats} (h : l₁.Perm l₂) :
    l₁.foldr ReadFilesStats.combine ReadFilesStats.default
      = l₂.foldr ReadFilesStats.combine ReadFilesStats.default := by
  induction h with
  | nil => rfl
  | cons x _ ih => simp [List.foldr, ih]
  | swap x y l =>
    simp only [List.foldr]
    rw [← combine_assoc, ← combine_assoc, combine_comm x y]
  | trans _ _ ih₁ ih₂ => exact ih₁.trans ih₂

lemma reduceTree_eq (t : StatsTree) :
    t.reduceTree = t.leaves.foldr ReadFilesStats.combine ReadFilesStats.default := by
  induction t with
  | leaf s => simp [StatsTree.reduceTree, StatsTree.leaves, List.foldr, combine_default_right]
  | node l r ihl ihr =>
    simp only [StatsTree.reduceTree, StatsTree.leaves, ihl, ihr, List.foldr_append]
    rw [foldr_combine_init l.leaves
      (r.leaves.foldr ReadFilesStats.combine ReadFilesStats.default)]

lemma read_file_of_loop (e : FileEntry) (m bytes : Nat) (diags : List Diag)
    (ex : LoopExit)
    (hopen : e.open_ok = true) (hmeta : e.meta_size = some m)
    (hloop : readLoop m e.reads 0 = (bytes, diags, ex)) :
    read_file e
      = (⟨bytes, 1⟩,
         diags ++ if ex = LoopExit.ioError then [Diag.errorLogged] else []) := by
  have h1 : do_read_file e ReadFilesStats.default
      = ⟨⟨bytes, 1⟩, diags, ExitKind.loopEnd ex⟩ := by
    simp [do_read_file, hopen, hmeta, ReadFilesStats.default, hloop]
  cases ex <;> simp [read_file, h1, ExitKind.isErr]

lemma sum_file_counts_ones :
    ∀ (es : List FileEntry), (∀ e ∈ es, (readFileStats e).file_count = 1) →
      (es.map (fun e => (readFileStats e).file_count)).sum = es.length
  | [], _ => rfl
  | e :: es, hall => by
    simp only [List.map_cons, List.sum_cons, List.length_cons]
    rw [hall e (by simp),
      sum_file_counts_ones es (fun e' he' => hall e' (by simp [he']))]
    omega

lemma reduceStats_file_count (entries : List FileEntry) :
    (reduceStats entries).file_count
      = (entries.map (fun e => (readFileStats e).file_count)).sum := by
  induction entries with
  | nil => rfl
  | cons e es ih =>
    have hstep : reduceStats (e :: es) = (readFileStats e).combine (reduceStats es) := rfl
    rw [List.map_cons, List.sum_cons, hstep, ← ih]
    rfl

/-- Claim C1: for every entry sequence and every thread count T ≥ 1, the
concatenation of the dispatched chunks equals the original entry sequence
exactly — no entry lost, none duplicated, order preserved — and consequently
the reduction of the per-worker results equals the fold of the per-file
statistics over the full entry list, each entry contributing exactly once. -/
theorem C1_partition_complete (T : Nat) (l : List FileEntry) (_hT : 1 ≤ T) :
    (partitionChunks T l).flatten = l ∧
    reduceWorkers (partitionChunks T l) = reduceStats l := by
  have hflat : (partitionChunks T l).flatten = l := by
    by_cases h0 : l.length = 0
    · have hnil : l = [] := List.length_eq_zero.mp h0
      subst hnil
      rfl
    · by_cases hc : l.length / T = 0
      · simp [partitionChunks, h0, hc]
      · simp [partitionChunks, h0, hc, splitSized_flatten]
  refine ⟨hflat, ?_⟩
  rw [reduceWorkers_flatten, hflat]

theorem C1_witness :
    (partitionChunks 2 entries8).flatten = entries8 ∧
    reduceWorkers (partitionChunks 2 entries8) = reduceStats entries8 :=
  C1_partition_complete 2 entries8 (by decide)

/-- Claim C2 (amended): with L entries and T ≥ 1 requested threads, when
T ≤ L every chunk has floor(L / T) entries except the last, which absorbs the
remainder; when 0 < L < T exactly one chunk containing all entries is
produced; and when L = 0 zero chunks are produced (so the claim's unqualified
"when L < T exactly one chunk is produced" fails only at L = 0). -/
theorem C2_chunk_policy {α : Type} (T : Nat) (l : List α) (hT : 1 ≤ T) :
    (l.length = 0 → partitionChunks T l = []) ∧
    (0 < l.length → l.length < T → partitionChunks T l = [l]) ∧
    (T ≤ l.length →
      (partitionChunks T l).map List.length
        = List.replicate (T - 1) (l.length / T)
            ++ [l.length / T + l.length % T]) := by
  refine ⟨?_, ?_, ?_⟩
  · intro h0
    simp [partitionChunks, h0]
  · intro hpos hlt
    have h0 : ¬ l.length = 0 := by omega
    have hc : l.length / T = 0 := Nat.div_eq_of_lt hlt
    simp [partitionChunks, h0, hc]
  · intro hTL
    have h0 : ¬ l.length = 0 := by omega
    have hc : ¬ l.length / T = 0 := by
      have h1 : 1 ≤ l.length / T := (Nat.one_le_div_iff (by omega)).mpr hTL
      omega
    simp only [partitionChunks, if_neg h0, if_neg hc]
    obtain ⟨T', rfl⟩ : ∃ T', T = T' + 1 := ⟨T - 1, by omega⟩
    have hdm : (T' + 1) * (l.length / (T' + 1)) + l.length % (T' + 1)
        = l.length := Nat.div_add_mod l.length (T' + 1)
    set c := l.length / (T' + 1) with hcdef
    clear_value c
    have hmul : (T' + 1) * c = T' * c + c := by ring
    have hsplit : T' * c + c ≤ l.length := by omega
    have hT1 : T' + 1 - 1 = T' := by omega
    rw [hT1, splitSized_lengths T' c l hsplit]
    have hlast : l.length - T' * c = c + l.length % (T' + 1) := by omega
    rw [hlast]

/-- Claim C2, counterexample: at L = 0 (here T = 8, the empty entry list) the
partitioner produces zero chunks, not "exactly one chunk containing all
entries" as the claim's unqualified "when L < T" clause asserts. -/
theorem C2_chunk_policy_cex :
    partitionChunks 8 (@List.nil Nat) = [] ∧
    ¬ ((partitionChunks 8 (@List.nil Nat)).length = 1) := by
  exact ⟨rfl, by decide⟩

theorem C2_witness :
    partitionChunks 8 (List.range 3) = [List.range 3] ∧
    (partitionChunks 3 (List.range 10)).map List.length
      = List.replicate (3 - 1) ((List.range 10).length / 3)
          ++ [(List.range 10).length / 3 + (List.range 10).length % 3] := by
  constructor
  · exact (C2_chunk_policy 8 (List.range 3) (by decide)).2.1 (by decide) (by decide)
  · exact (C2_chunk_policy 3 (List.range 10) (by decide)).2.2 (by decide)

/-- Claim C3: if the running per-file byte total exceeds the entry's expected
size (the size the worker's check uses) at a chunk boundary before
end-of-stream, the worker emits the extension diagnostic and stops reading
that file immediately (the stream past that read is never consumed), the
accumulated bytes never exceed the expected size plus one buffer
(BUF_SIZE = 65536), and the file still counts as exactly 1 file read. -/
theorem C3_extension_detection (e : FileEntry) (m n : Nat) (pre : List Nat)
    (rest rest' : List ReadEv)
    (hopen : e.open_ok = true) (hmeta : e.meta_size = some m)
    (hreads : e.reads = pre.map ReadEv.ok ++ ReadEv.ok n :: rest)
    (hpos : ∀ k ∈ pre, 0 < k) (hpre : pre.sum ≤ m)
    (hbuf : n ≤ BUF_SIZE) (hexc : m < pre.sum + n) :
    read_file e = (⟨pre.sum + n, 1⟩, [Diag.extended]) ∧
    pre.sum + n ≤ m + BUF_SIZE ∧
    read_file ⟨e.listing_size, e.open_ok, e.meta_size,
        pre.map ReadEv.ok ++ ReadEv.ok n :: rest'⟩ = read_file e := by
  have hn0 : ¬ n = 0 := by omega
  have hloop : ∀ tail : List ReadEv,
      readLoop m (pre.map ReadEv.ok ++ ReadEv.ok n :: tail) 0
        = (pre.sum + n, [Diag.extended], LoopExit.extendBreak) := by
    intro tail
    rw [readLoop_consume m 0 pre _ hpos (by omega)]
    simp [readLoop, hn0, Nat.zero_add, hexc]
  have h1 : read_file e = (⟨pre.sum + n, 1⟩, [Diag.extended]) := by
    have h := read_file_of_loop e m (pre.sum + n) [Diag.extended] .extendBreak
      hopen hmeta (by rw [hreads]; exact hloop rest)
    simpa using h
  refine ⟨h1, by omega, ?_⟩
  have h2 : read_file ⟨e.listing_size, e.open_ok, e.meta_size,
      pre.map ReadEv.ok ++ ReadEv.ok n :: rest'⟩
        = (⟨pre.sum + n, 1⟩, [Diag.extended]) := by
    have h := read_file_of_loop
      ⟨e.listing_size, e.open_ok, e.meta_size,
        pre.map ReadEv.ok ++ ReadEv.ok n :: rest'⟩
      m (pre.sum + n) [Diag.extended] .extendBreak hopen hmeta (hloop rest')
    simpa using h
  rw [h2, h1]

theorem C3_witness :
    read_file e3 = (⟨6, 1⟩, [Diag.extended]) ∧
    6 ≤ 5 + BUF_SIZE ∧
    read_file ⟨e3.listing_size, e3.open_ok, e3.meta_size,
        [3].map ReadEv.ok ++ ReadEv.ok 3 :: []⟩ = read_file e3 :=
  C3_extension_detection e3 5 3 [3] [ReadEv.ok 7] []
    rfl rfl rfl (by decide) (by decide) (by decide) (by decide)

/-- Claim C4: if end-of-stream is reached with the running total strictly
below the expected size, the truncation diagnostic is emitted, the bytes
actually read are kept (no padding, no retry) and the file counts as read;
if the total equals the expected size at end-of-stream, no diagnostic is
produced. -/
theorem C4_truncation_detection (e : FileEntry) (m : Nat) (pre : List Nat)
    (rest : List ReadEv)
    (hopen : e.open_ok = true) (hmeta : e.meta_size = some m)
    (hreads : e.reads = pre.map ReadEv.ok ++ ReadEv.ok 0 :: rest)
    (hpos : ∀ k ∈ pre, 0 < k) (hpre : pre.sum ≤ m) :
    read_file e
      = (⟨pre.sum, 1⟩, if pre.sum < m then [Diag.truncated] else []) ∧
    (pre.sum = m → read_file e = (⟨m, 1⟩, [])) := by
  have hiff : (pre.sum ≠ m) ↔ (pre.sum < m) := by omega
  have hloop : readLoop m e.reads 0
      = (pre.sum, if pre.sum < m then [Diag.truncated] else [],
         LoopExit.eofBreak) := by
    rw [hreads, readLoop_consume m 0 pre _ hpos (by omega)]
    simp [readLoop, Nat.zero_add, hiff]
  have h1 : read_file e
      = (⟨pre.sum, 1⟩, if pre.sum < m then [Diag.truncated] else []) := by
    have h := read_file_of_loop e m pre.sum _ .eofBreak hopen hmeta hloop
    simpa using h
  refine ⟨h1, ?_⟩
  intro heq
  rw [h1, heq]
  simp

theorem C4_witness :
    read_file e4 = (⟨4, 1⟩, [Diag.truncated]) := by
  have h := (C4_truncation_detection e4 10 [4] []
    rfl rfl rfl (by decide) (by decide)).1
  simpa using h

/-- Claim C5: an entry whose open fails is skipped with no bytes and no file
count attributed, and only a diagnostic is recorded; an entry that opens but
hits an I/O error mid-read keeps the bytes accumulated so far and still
counts as 1 file read; and in both cases the per-entry result feeds the
reduction normally (the error never escapes the worker as a run failure). -/
theorem C5_per_file_errors :
    (∀ e : FileEntry, e.open_ok = false →
      read_file e = (⟨0, 0⟩, [Diag.errorLogged])) ∧
    (∀ (e : FileEntry) (m : Nat) (pre : List Nat) (rest : List ReadEv),
      e.open_ok = true → e.meta_size = some m →
      e.reads = pre.map ReadEv.ok ++ ReadEv.ioErr :: rest →
      (∀ k ∈ pre, 0 < k) → pre.sum ≤ m →
      read_file e = (⟨pre.sum, 1⟩, [Diag.errorLogged])) ∧
    (∀ (l₁ l₂ : List FileEntry) (e : FileEntry),
      reduceStats (l₁ ++ e :: l₂)
        = (reduceStats l₁).combine
            ((readFileStats e).combine (reduceStats l₂))) := by
  refine ⟨?_, ?_, ?_⟩
  · intro e hopen
    simp [read_file, do_read_file, hopen, ExitKind.isErr, ReadFilesStats.default]
  · intro e m pre rest hopen hmeta hreads hpos hpre
    have hloop : readLoop m e.reads 0 = (pre.sum, [], LoopExit.ioError) := by
      rw [hreads, readLoop_consume m 0 pre _ hpos (by omega)]
      simp [readLoop, Nat.zero_add]
    have h := read_file_of_loop e m pre.sum [] .ioError hopen hmeta hloop
    simpa using h
  · intro l₁ l₂ e
    rw [reduceStats_append]
    rfl

theorem C5_witness :
    read_file eBad = (⟨0, 0⟩, [Diag.errorLogged]) ∧
    read_file e5 = (⟨4, 1⟩, [Diag.errorLogged]) := by
  refine ⟨C5_per_file_errors.1 eBad rfl, ?_⟩
  have h := C5_per_file_errors.2.1 e5 10 [4] [] rfl rfl rfl (by decide) (by decide)
  simpa using h

/-- Claim C6: the statistics merge is associative and commutative, so folding
any permutation of a collection of ReadFilesStats values yields the same
total, and any fan-in reduction tree computes the fold of its leaves. -/
theorem C6_combine_monoid :
    (∀ a b c : ReadFilesStats,
      (a.combine b).combine c = a.combine (b.combine c)) ∧
    (∀ a b : ReadFilesStats, a.combine b = b.combine a) ∧
    (∀ l₁ l₂ : List ReadFilesStats, l₁.Perm l₂ →
      l₁.foldr ReadFilesStats.combine ReadFilesStats.default
        = l₂.foldr ReadFilesStats.combine ReadFilesStats.default) ∧
    (∀ t : StatsTree,
      t.reduceTree
        = t.leaves.foldr ReadFilesStats.combine ReadFilesStats.default) :=
  ⟨combine_assoc, combine_comm, fun _ _ h => foldr_combine_perm h, reduceTree_eq⟩

theorem C6_witness :
    List.foldr ReadFilesStats.combine ReadFilesStats.default
        [⟨1, 1⟩, ⟨2, 1⟩, ⟨3, 1⟩]
      = List.foldr ReadFilesStats.combine ReadFilesStats.default
        [⟨3, 1⟩, ⟨1, 1⟩, ⟨2, 1⟩] :=
  C6_combine_monoid.2.2.1 [⟨1, 1⟩, ⟨2, 1⟩, ⟨3, 1⟩] [⟨3, 1⟩, ⟨1, 1⟩, ⟨2, 1⟩]
    (by decide)

/-- Claim C7 (amended): the size used for drift detection is the one obtained
by querying the file's metadata during the read phase, immediately after a
successful open — the worker's diagnostics coincide with the spec's drift
policy evaluated at that read-phase value, and the outcome is entirely
independent of the size captured at listing time. -/
theorem C7_drift_size_source (e : FileEntry) (m : Nat)
    (hopen : e.open_ok = true) (hmeta : e.meta_size = some m) :
    (do_read_file e ReadFilesStats.default).diags = specDriftDiags m e.reads 0 ∧
    (∀ s : Nat,
      do_read_file ⟨s, e.open_ok, e.meta_size, e.reads⟩ ReadFilesStats.default
        = do_read_file e ReadFilesStats.default) := by
  constructor
  · rcases hl : readLoop m e.reads 0 with ⟨bytes, diags, ex⟩
    have hd : (do_read_file e ReadFilesStats.default).diags = diags := by
      simp [do_read_file, hopen, hmeta, ReadFilesStats.default, hl]
    rw [hd, ← readLoop_diags_spec m e.reads 0 (Nat.zero_le m), hl]
  · intro s
    cases e
    rfl

/-- Claim C7, counterexample: entry `e7` was listed at 1000 bytes and holds
2000 bytes by read time; the worker's read-phase stat returns 2000, all 2000
bytes are read and no diagnostic is emitted, whereas a comparison against the
listing-time value 1000 would emit the extension diagnostic — so the drift
comparison is not made against the size captured at listing time. -/
theorem C7_drift_size_source_cex :
    (do_read_file e7 ReadFilesStats.default).stats.bytes = 2000 ∧
    (do_read_file e7 ReadFilesStats.default).diags = [] ∧
    specDriftDiags e7.listing_size e7.reads 0 = [Diag.extended] ∧
    ¬ ((do_read_file e7 ReadFilesStats.default).diags
        = specDriftDiags e7.listing_size e7.reads 0) := by
  refine ⟨by decide, by decide, by decide, by decide⟩

theorem C7_witness :
    (do_read_file e7 ReadFilesStats.default).diags
      = specDriftDiags 2000 e7.reads 0 ∧
    do_read_file ⟨77, e7.open_ok, e7.meta_size, e7.reads⟩ ReadFilesStats.default
      = do_read_file e7 ReadFilesStats.default :=
  ⟨(C7_drift_size_source e7 2000 rfl rfl).1,
   (C7_drift_size_source e7 2000 rfl rfl).2 77⟩

/-- Claim C8 (amended): the read-phase byte total of the report is derived
from the reduced ReadFilesStats, but the files-per-second figure for the read
phase uses the listing-phase entry count (`all_files.len()`), not the reduced
file_count; the two agree exactly when every entry contributes one file read.
The reduced stats themselves do satisfy the claim's example: one unreadable
file plus two readable 100-byte files yield file_count = 2 and bytes = 200. -/
theorem C8_report_fields (entries : List FileEntry) (dur : ℚ) :
    (readPhaseReport entries dur).byte_total = (reduceStats entries).bytes ∧
    (readPhaseReport entries dur).files_figure = entries.length ∧
    ((∀ e ∈ entries, (readFileStats e).file_count = 1) →
      (readPhaseReport entries dur).files_figure
        = (reduceStats entries).file_count) := by
  refine ⟨rfl, rfl, ?_⟩
  intro hall
  rw [reduceStats_file_count, sum_file_counts_ones entries hall]
  rfl

/-- Claim C8, counterexample: for the chunk `entries8` (one unreadable file
and two readable 100-byte files) the reduced stats are file_count = 2 and
bytes = 200 as the claim's example says, but the files-per-second figure of
the read-phase report counts 3 — the number of listed entries — so the
report's file figure does not equal ReadFilesStats.file_count. -/
theorem C8_report_fields_cex :
    (reduceStats entries8).file_count = 2 ∧
    (reduceStats entries8).bytes = 200 ∧
    (readPhaseReport entries8 1).files_figure = 3 ∧
    ¬ ((readPhaseReport entries8 1).files_figure
        = (reduceStats entries8).file_count) := by
  refine ⟨by decide, by decide, by decide, by decide⟩

theorem C8_witness :
    (readPhaseReport [eGood, eGood] 1).files_figure
      = (reduceStats [eGood, eGood]).file_count :=
  (C8_report_fields [eGood, eGood] 1).2.2 (by decide)

/-- Claim C9: on the empty entry sequence the partitioner yields zero chunks,
the reduction completes with all-zero statistics, and the report is defined:
its counts are zero and the files-per-second figure at zero elapsed time is
NaN — the defined, non-trapping sentinel IEEE-754 division produces — rather
than a crash. -/
theorem C9_empty_run :
    (∀ T : Nat, partitionChunks T (@List.nil FileEntry) = []) ∧
    reduceStats [] = ReadFilesStats.default ∧
    (readPhaseReport [] 0).byte_total = 0 ∧
    (readPhaseReport [] 0).files_figure = 0 ∧
    (readPhaseReport [] 0).files_per_s = F64.nan := by
  refine ⟨fun T => rfl, rfl, rfl, rfl, by decide⟩

/-- Claim C10: the per-file counter is incremented immediately after a
successful open, before any bytes are read: if the open succeeds but the
metadata query fails before the first read, the entry still contributes
exactly files_read = 1 and bytes_read = 0, a diagnostic is logged, and the
worker continues. -/
theorem C10_count_after_open (e : FileEntry)
    (hopen : e.open_ok = true) (hmeta : e.meta_size = none) :
    read_file e = (⟨0, 1⟩, [Diag.errorLogged]) := by
  simp [read_file, do_read_file, hopen, hmeta, ExitKind.isErr,
    ReadFilesStats.default]

theorem C10_witness :
    read_file e10 = (⟨0, 1⟩, [Diag.errorLogged]) :=
  C10_count_after_open e10 rfl rfl

end Iobench
